import Mathlib

/-!
Verification development for the esophageal-cancer prognostic prediction
script (`predict_model.py`). The script's single entry point
`predict_on_new_data` is shallowly embedded here: tables are column-major
lists of named cell columns, cells are missing / string / rational, and
every preprocessing stage of the script (sentinel replacement, numeric
coercion, per-column imputation, manual category mapping, the ordinal
ECOG coercion, partial-hazard scoring, quantile risk grouping, optional
concordance validation) is translated into an executable Lean function.
Machine floats are modelled by exact rationals. Components that live
outside this repository (the fitted imputers, the fitted Cox model and
the lifelines concordance index) are modelled from the specification, as
marked in their doc comments.
-/

/-- A cell of the patient table: missing (NaN), a raw string, or a number
(floats modelled as exact rationals). -/
inductive Cell where
  | na : Cell
  | str : String → Cell
  | num : ℚ → Cell
deriving DecidableEq, Repr

/-- Column-major table: a list of named columns, each a list of cells.
Mirrors the pandas DataFrame the script threads through its stages. -/
structure Table where
  cols : List (String × List Cell)
deriving DecidableEq, Repr

/-- Column names, in order. -/
def Table.columns (t : Table) : List String :=
  t.cols.map Prod.fst

/-- Whether a column of the given name exists (`col in df.columns`). -/
def Table.hasCol (t : Table) (c : String) : Bool :=
  t.cols.any (fun p => p.1 = c)

/-- The cells of the first column of the given name (`df[col]`). -/
def Table.getCol (t : Table) (c : String) : Option (List Cell) :=
  (t.cols.find? (fun p => p.1 = c)).map Prod.snd

/-- Column assignment (`df[col] = cells`): replace every column of that
name, or append a new column at the end when absent. -/
def Table.setCol (t : Table) (c : String) (cells : List Cell) : Table :=
  if t.hasCol c then
    ⟨t.cols.map (fun p => if p.1 = c then (c, cells) else p)⟩
  else
    ⟨t.cols ++ [(c, cells)]⟩

/-- Apply a cell function to one named column in place. -/
def Table.mapColCells (t : Table) (c : String) (f : Cell → Cell) : Table :=
  ⟨t.cols.map (fun p => if p.1 = c then (p.1, p.2.map f) else p)⟩

/-- Apply a cell function to every cell of the table (`df.replace`). -/
def Table.mapAllCells (t : Table) (f : Cell → Cell) : Table :=
  ⟨t.cols.map (fun p => (p.1, p.2.map f))⟩

/-- Projection `df[[c for c in names if present]]`, keeping the order of
`names`. -/
def Table.select (t : Table) (names : List String) : Table :=
  ⟨names.filterMap (fun c => (t.getCol c).map (fun cells => (c, cells)))⟩

/-- Number of rows, read off the first column (0 for a column-less table). -/
def Table.numRows (t : Table) : Nat :=
  (t.cols.head?.map (fun p => p.2.length)).getD 0

/-- All columns have the given length. -/
def Table.uniform (t : Table) (n : Nat) : Prop :=
  ∀ p ∈ t.cols, p.2.length = n

/-- The sentinel tokens the script rewrites to NaN (line 51 of the
source): `['NA', '/', 'unknown', '？', 'nan', 'NaN', '']`. -/
def missingTokens : List String :=
  ["NA", "/", "unknown", "？", "nan", "NaN", ""]

/-- `df.replace(missing_values, np.nan)` on a single cell. -/
def replaceMissing (x : Cell) : Cell :=
  match x with
  | Cell.str s => if s ∈ missingTokens then Cell.na else Cell.str s
  | y => y

/-- Digit-string check used by the decimal parser. -/
def allDigits (cs : List Char) : Bool :=
  cs.all Char.isDigit

/-- Decimal digits to a natural number (most-significant first). -/
def digitsToNat (cs : List Char) : Nat :=
  cs.foldl (fun a c => a * 10 + (c.toNat - 48)) 0

/-- Plain decimal parser modelling `pd.to_numeric` on strings: optional
sign, integer digits, optional fractional part; anything else fails. -/
def parseNum (s : String) : Option ℚ :=
  let cs := s.toList
  let body := match cs with
    | '-' :: r => r
    | '+' :: r => r
    | r => r
  let sgn : ℚ := match cs with
    | '-' :: _ => -1
    | _ => 1
  let ip := body.takeWhile (fun c => c ≠ '.')
  let rest := body.dropWhile (fun c => c ≠ '.')
  let fp := rest.drop 1
  if allDigits ip && allDigits fp && (!ip.isEmpty || !fp.isEmpty) then
    some (sgn * ((digitsToNat ip : ℚ) + (digitsToNat fp : ℚ) / ((10 : ℚ) ^ fp.length)))
  else
    none

/-- `pd.to_numeric(cell, errors='coerce')`: numbers pass through, parseable
strings become numbers, everything else becomes NaN. -/
def coerceCell (x : Cell) : Cell :=
  match x with
  | Cell.num q => Cell.num q
  | Cell.na => Cell.na
  | Cell.str s =>
    match parseNum s with
    | some q => Cell.num q
    | none => Cell.na

/-- `Series.fillna(fill)` on a single cell. -/
def fillNA (fill : Cell) (x : Cell) : Cell :=
  if x = Cell.na then fill else x

/-- One manual-mapping lookup (`Series.map(mapping)` then `fillna(-1)`):
a key of the mapping goes to its numeric code, anything else to -1. -/
def applyMapping (m : List (Cell × ℚ)) (x : Cell) : Cell :=
  match m.find? (fun p => p.1 = x) with
  | some p => Cell.num p.2
  | none => Cell.num (-1)

/-- The ECOG special case on one cell (line 73 of the source):
`pd.to_numeric(..., errors='coerce').fillna(-1)`. -/
def ecogCoerce (x : Cell) : Cell :=
  match coerceCell x with
  | Cell.na => Cell.num (-1)
  | y => y

/-- The serialized model bundle loaded by the script. The imputers are
modelled from the spec (the training script that fits them is not in this
repository): each is a per-column fill-value strategy, per §3 of the
design ("each: fitted per-column fill-value strategy"). The Cox model is
likewise modelled from the spec as a per-row scoring function. -/
structure ModelBundle where
  best_features : List String
  pure_numeric_features : List String
  categorical_features : List String
  manual_mappings : List (String × List (Cell × ℚ))
  imputer_numeric_fill : String → ℚ
  imputer_categorical_fill : String → Cell
  cox_model : List Cell → ℚ

/-- `[col for col in pure_numeric_features if col in new_data.columns]`. -/
def numericInModel (b : ModelBundle) (t : Table) : List String :=
  b.pure_numeric_features.filter (fun c => t.hasCol c)

/-- `[col for col in categorical_features if col in new_data.columns]`. -/
def categoricalInModel (b : ModelBundle) (t : Table) : List String :=
  b.categorical_features.filter (fun c => t.hasCol c)

/-- One guarded imputation step (lines 60-66 of the source): transform the
column only when it still contains a missing entry. -/
def imputeCol (fill : Cell) (t : Table) (c : String) : Table :=
  match t.getCol c with
  | none => t
  | some cells =>
    if cells.any (fun x => x = Cell.na) then
      t.setCol c (cells.map (fillNA fill))
    else
      t

/-- The numeric imputation loop (lines 60-62). -/
def imputeNumericLoop (b : ModelBundle) (nums : List String) (t : Table) : Table :=
  nums.foldl (fun s c => imputeCol (Cell.num (b.imputer_numeric_fill c)) s c) t

/-- The categorical imputation loop (lines 64-66). -/
def imputeCategoricalLoop (b : ModelBundle) (cats : List String) (t : Table) : Table :=
  cats.foldl (fun s c => imputeCol (b.imputer_categorical_fill c) s c) t

/-- The manual-mapping loop (lines 68-70). -/
def applyMappings (maps : List (String × List (Cell × ℚ))) (t : Table) : Table :=
  maps.foldl
    (fun s p =>
      if s.hasCol p.1 then
        s.setCol p.1 (((s.getCol p.1).getD []).map (applyMapping p.2))
      else s)
    t

/-- The ECOG_Score special case (lines 72-73). -/
def ecogStep (t : Table) : Table :=
  if t.hasCol "ECOG_Score" then
    t.mapColCells "ECOG_Score" ecogCoerce
  else t

/-- The whole preprocessing stage (lines 51-73): sentinel replacement,
numeric coercion, guarded numeric and categorical imputation, manual
mappings, ECOG coercion — in the source's order. -/
def preprocess (b : ModelBundle) (t : Table) : Table :=
  let t2 := t.mapAllCells replaceMissing
  let nums := numericInModel b t2
  let cats := categoricalInModel b t2
  let t3 := nums.foldl (fun s c => s.mapColCells c coerceCell) t2
  let t4 := imputeNumericLoop b nums t3
  let t5 := imputeCategoricalLoop b cats t4
  let t6 := applyMappings b.manual_mappings t5
  ecogStep t6

/-- Insert into a sorted list (ascending). -/
def insertSorted (x : ℚ) : List ℚ → List ℚ
  | [] => [x]
  | y :: ys => if x ≤ y then x :: y :: ys else y :: insertSorted x ys

/-- Ascending sort of the score vector, as numpy sorts before taking
quantiles. -/
def sortScores (xs : List ℚ) : List ℚ :=
  xs.foldr insertSorted []

/-- Floor of a nonnegative rational, as a natural number. -/
def floorPos (x : ℚ) : Nat :=
  x.num.toNat / x.den

/-- Linear-interpolation quantile of an ascending list, numpy's default:
position `q * (n - 1)`, interpolating between the neighbouring order
statistics. -/
def quantileLinear (sorted : List ℚ) (q : ℚ) : ℚ :=
  let n := sorted.length
  let pos := q * ((n : ℚ) - 1)
  let i := floorPos pos
  let g := pos - (i : ℚ)
  let x0 := sorted.getD i 0
  let x1 := sorted.getD (i + 1) x0
  x0 + g * (x1 - x0)

/-- The `qn + 1` quantile edges `np.linspace(0, 1, qn + 1)` that
`pd.qcut(x, q=qn)` computes. -/
def qcutEdges (scores : List ℚ) (qn : Nat) : List ℚ :=
  let sorted := sortScores scores
  (List.range (qn + 1)).map (fun i => quantileLinear sorted ((i : ℚ) / (qn : ℚ)))

/-- Drop adjacent duplicates; on the nondecreasing edge vector this is
pandas' `duplicates='drop'` (first-occurrence unique). -/
def dedupAdj : List ℚ → List ℚ
  | [] => []
  | [a] => [a]
  | a :: b :: rest => if a = b then dedupAdj (b :: rest) else a :: dedupAdj (b :: rest)

/-- `np.searchsorted(bins, x, side='left')`: the count of edges strictly
below `x`. -/
def searchsortedLeft (bins : List ℚ) (x : ℚ) : Nat :=
  bins.countP (fun e => decide (e < x))

/-- The label a score receives from pandas' cut with right-closed bins and
`include_lowest=True`: a value equal to the lowest edge goes to the first
bin, out-of-range values become NaN. -/
def qcutLabelCell (labels : List String) (bins : List ℚ) (x : ℚ) : Cell :=
  let id0 := searchsortedLeft bins x
  let id := if some x = bins.head? then 1 else id0
  if id = 0 ∨ id = bins.length then Cell.na
  else
    match labels.get? (id - 1) with
    | some l => Cell.str l
    | none => Cell.na

/-- `pd.qcut(scores, q=qn, labels=labels, duplicates='drop')`: compute the
quantile edges, drop duplicate edges, and raise pandas' label-count
`ValueError` when the surviving bins no longer match the label list. -/
def qcut (scores : List ℚ) (qn : Nat) (labels : List String) : Except String (List Cell) :=
  let bins := dedupAdj (qcutEdges scores qn)
  if labels.length ≠ bins.length - 1 then
    Except.error "Bin labels must be one fewer than the number of bin edges"
  else
    Except.ok (scores.map (qcutLabelCell labels bins))

/-- The risk-grouping cascade (lines 84-90 of the source): tertiles with
labels Low/Medium/High for 3 or more distinct scores, a median split with
labels Low/High for exactly 2 distinct scores, the constant Medium
otherwise. -/
def riskGroupColumn (scores : List ℚ) : Except String (List Cell) :=
  let u := scores.dedup.length
  if 3 ≤ u then qcut scores 3 ["Low", "Medium", "High"]
  else if u = 2 then qcut scores 2 ["Low", "High"]
  else Except.ok (scores.map (fun _ => Cell.str "Medium"))

/-- Numeric reading of a cell (0 for anything non-numeric), used to feed
the label columns to the concordance computation. -/
def cellToRat (x : Cell) : ℚ :=
  match x with
  | Cell.num q => q
  | _ => 0

/-- A column as rationals. -/
def colRats (t : Table) (c : String) : List ℚ :=
  ((t.getCol c).getD []).map cellToRat

/-- Modelled from the spec: the lifelines concordance index (an external
library routine), per the glossary — the fraction of comparable patient
pairs (an observed event with a shorter time than the other patient)
whose prediction ordering agrees with the survival ordering, ties at one
half. -/
def concordanceIndex (times preds events : List ℚ) : ℚ :=
  let idx := List.range times.length
  let pairs := idx.flatMap (fun i => idx.map (fun j => (i, j)))
  let comp := pairs.filter
    (fun p => decide (times.getD p.1 0 < times.getD p.2 0) && decide (events.getD p.1 0 = 1))
  let score := comp.foldl
    (fun acc p =>
      acc +
        (if preds.getD p.1 0 < preds.getD p.2 0 then 1
         else if preds.getD p.1 0 = preds.getD p.2 0 then 1 / 2
         else (0 : ℚ)))
    0
  if comp.length = 0 then 1 / 2 else score / (comp.length : ℚ)

/-- The i-th row of the selected feature columns, in feature order. -/
def featureRows (t : Table) (feats : List String) : List (List Cell) :=
  (List.range t.numRows).map
    (fun i => feats.map (fun c => ((t.getCol c).getD []).getD i Cell.na))

/-- Errors the embedded pipeline can raise: the schema check of lines
37-42 (carrying exactly the missing names) and pandas' qcut label
mismatch. -/
inductive PipeError where
  | schemaError : List String → PipeError
  | qcutError : String → PipeError
deriving DecidableEq, Repr

/-- What a successful run returns: the augmented table and the optional
concordance index. -/
structure PredictResult where
  table : Table
  c_index : Option ℚ
deriving DecidableEq, Repr

/-- `best_features + ['OS_Time', 'Event']` filtered to the input's columns
(line 46 of the source). -/
def requiredColumns (b : ModelBundle) (t : Table) : List String :=
  (b.best_features ++ ["OS_Time", "Event"]).filter (fun c => t.hasCol c)

/-- The preprocessed working table: the input projected to the required
columns (line 46) and run through the preprocessing stage (lines 51-73). -/
def pipeTable (b : ModelBundle) (t0 : Table) : Table :=
  preprocess b (t0.select (requiredColumns b t0))

/-- The per-row partial-hazard scores (line 80): the fitted Cox model
applied to each row of the selected feature columns. -/
def pipeScores (b : ModelBundle) (t0 : Table) : List ℚ :=
  (featureRows (pipeTable b t0) b.best_features).map b.cox_model

/-- The working table after the Risk_Score and Risk_Group columns are
assigned (lines 81 and 86-90). -/
def pipeWithGroups (b : ModelBundle) (t0 : Table) (groups : List Cell) : Table :=
  ((pipeTable b t0).setCol "Risk_Score" ((pipeScores b t0).map Cell.num)).setCol
    "Risk_Group" groups

/-- The pipeline after a successful schema check: preprocessing, scoring,
risk grouping (whose qcut error aborts the run), and the optional
concordance validation of lines 93-98. -/
def predictChecked (b : ModelBundle) (t0 : Table) : Except PipeError PredictResult :=
  match riskGroupColumn (pipeScores b t0) with
  | Except.error msg => Except.error (PipeError.qcutError msg)
  | Except.ok groups =>
    Except.ok ⟨pipeWithGroups b t0 groups,
      if (pipeWithGroups b t0 groups).hasCol "Event" &&
          (pipeWithGroups b t0 groups).hasCol "OS_Time" then
        some (concordanceIndex (colRats (pipeWithGroups b t0 groups) "OS_Time")
          ((colRats (pipeWithGroups b t0 groups) "Risk_Score").map (fun x => -x))
          (colRats (pipeWithGroups b t0 groups) "Event"))
      else none⟩

/-- The embedded `predict_on_new_data` (file I/O and printing elided):
schema check of lines 37-42, then the checked pipeline. -/
def predictOnNewData (b : ModelBundle) (t0 : Table) : Except PipeError PredictResult :=
  let missing_cols := b.best_features.filter (fun c => !t0.hasCol c)
  if missing_cols ≠ [] then
    Except.error (PipeError.schemaError missing_cols)
  else
    predictChecked b t0

/-! ### Basic laws of the table operations -/

theorem find?_map_name_keep (g : String × List Cell → String × List Cell)
    (hg : ∀ p, (g p).1 = p.1) (c : String) :
    ∀ l : List (String × List Cell),
      (l.map g).find? (fun p => p.1 = c) = (l.find? (fun p => p.1 = c)).map g := by
  intro l
  induction l with
  | nil => rfl
  | cons p rest ih =>
    by_cases hp : p.1 = c
    · rw [List.map_cons, List.find?_cons_of_pos, List.find?_cons_of_pos]
      · simp
      · simpa using hp
      · simpa [hg] using hp
    · rw [List.map_cons, List.find?_cons_of_neg, List.find?_cons_of_neg, ih]
      · simpa using hp
      · simpa [hg] using hp

theorem hasCol_iff_getCol_isSome (t : Table) (c : String) :
    t.hasCol c = true ↔ (t.getCol c).isSome = true := by
  unfold Table.hasCol Table.getCol
  rcases hf : t.cols.find? (fun p => p.1 = c) with _ | p
  · have hn := List.find?_eq_none.mp hf
    have ha : (t.cols.any fun p => decide (p.1 = c)) = false := by
      rw [List.any_eq_false]
      intro x hx
      simpa using hn x hx
    rw [hf, ha]
    simp
  · have hmem := List.mem_of_find?_eq_some hf
    have hp := List.find?_some hf
    have ha : (t.cols.any fun p => decide (p.1 = c)) = true := by
      rw [List.any_eq_true]
      exact ⟨p, hmem, hp⟩
    rw [hf, ha]
    simp

theorem hasCol_iff_mem_columns (t : Table) (c : String) :
    t.hasCol c = true ↔ c ∈ t.columns := by
  unfold Table.hasCol Table.columns
  rw [List.any_eq_true]
  constructor
  · rintro ⟨p, hp, hc⟩
    exact List.mem_map.mpr ⟨p, hp, by simpa using hc⟩
  · intro hmem
    rcases List.mem_map.mp hmem with ⟨p, hp, hc⟩
    exact ⟨p, hp, by simpa using hc⟩

theorem hasCol_of_getCol_eq_some {t : Table} {c : String} {cells : List Cell}
    (h : t.getCol c = some cells) : t.hasCol c = true := by
  rw [hasCol_iff_getCol_isSome, h]
  rfl

theorem getCol_eq_some_of_hasCol {t : Table} {c : String} (h : t.hasCol c = true) :
    ∃ cells, t.getCol c = some cells := by
  rw [hasCol_iff_getCol_isSome] at h
  exact Option.isSome_iff_exists.mp h

theorem getCol_mapColCells_ne (t : Table) {d c : String} (f : Cell → Cell) (h : d ≠ c) :
    (t.mapColCells d f).getCol c = t.getCol c := by
  unfold Table.mapColCells Table.getCol
  rw [find?_map_name_keep]
  · rcases hf : t.cols.find? (fun p => p.1 = c) with _ | p
    · rw [hf]
      rfl
    · rw [hf]
      have hp : p.1 = c := by simpa using List.find?_some hf
      have hd : ¬ (p.1 = d) := by rw [hp]; exact fun hh => h hh.symm
      simp [hd]
  · intro p
    by_cases hp : p.1 = d <;> simp [hp]

theorem getCol_mapColCells_self {t : Table} {c : String} {cells : List Cell} (f : Cell → Cell)
    (h : t.getCol c = some cells) :
    (t.mapColCells c f).getCol c = some (cells.map f) := by
  unfold Table.mapColCells Table.getCol
  unfold Table.getCol at h
  rw [find?_map_name_keep]
  · rcases hf : t.cols.find? (fun p => p.1 = c) with _ | p
    · rw [hf] at h; simp at h
    · rw [hf] at h
      rw [hf]
      have hp : p.1 = c := by simpa using List.find?_some hf
      have hcells : p.2 = cells := by simpa using h
      simp [hp, hcells]
  · intro p
    by_cases hp : p.1 = c <;> simp [hp]

theorem getCol_mapAllCells (t : Table) (c : String) (f : Cell → Cell) :
    (t.mapAllCells f).getCol c = (t.getCol c).map (List.map f) := by
  unfold Table.mapAllCells Table.getCol
  rw [find?_map_name_keep]
  · rcases hf : t.cols.find? (fun p => p.1 = c) with _ | p
    · rw [hf]
      rfl
    · rw [hf]
      rfl
  · intro p
    simp

theorem getCol_setCol_self (t : Table) (c : String) (cells : List Cell) :
    (t.setCol c cells).getCol c = some cells := by
  unfold Table.setCol
  by_cases hc : t.hasCol c = true
  · rw [if_pos hc]
    unfold Table.getCol
    rw [show (fun p : String × List Cell => if p.1 = c then (c, cells) else p) =
        (fun p : String × List Cell => if p.1 = c then (p.1, cells) else p) from ?_]
    · rw [find?_map_name_keep]
      · have hs : (t.getCol c).isSome = true := (hasCol_iff_getCol_isSome t c).mp hc
        unfold Table.getCol at hs
        rcases hf : t.cols.find? (fun p => p.1 = c) with _ | p
        · rw [hf] at hs; simp at hs
        · rw [hf]
          have hp : p.1 = c := by simpa using List.find?_some hf
          simp [hp]
      · intro p
        by_cases hp : p.1 = c <;> simp [hp]
    · funext p
      by_cases hp : p.1 = c <;> simp [hp]
  · rw [if_neg hc]
    unfold Table.getCol
    rw [List.find?_append]
    rcases hf : t.cols.find? (fun p => p.1 = c) with _ | p
    · rw [hf]
      simp
    · exfalso
      apply hc
      rw [hasCol_iff_getCol_isSome]
      unfold Table.getCol
      rw [hf]
      rfl

theorem getCol_setCol_ne (t : Table) {d c : String} (cells : List Cell) (h : d ≠ c) :
    (t.setCol d cells).getCol c = t.getCol c := by
  unfold Table.setCol
  by_cases hc : t.hasCol d = true
  · rw [if_pos hc]
    unfold Table.getCol
    rw [show (fun p : String × List Cell => if p.1 = d then (d, cells) else p) =
        (fun p : String × List Cell => if p.1 = d then (p.1, cells) else p) from ?_]
    · rw [find?_map_name_keep]
      · rcases hf : t.cols.find? (fun p => p.1 = c) with _ | p
        · rw [hf]
          rfl
        · rw [hf]
          have hp : p.1 = c := by simpa using List.find?_some hf
          have hd : ¬ (p.1 = d) := by rw [hp]; exact fun hh => h hh.symm
          simp [hd]
      · intro p
        by_cases hp : p.1 = d <;> simp [hp]
    · funext p
      by_cases hp : p.1 = d <;> simp [hp]
  · rw [if_neg hc]
    unfold Table.getCol
    rw [List.find?_append]
    have h2 : List.find? (fun p => p.1 = c) [(d, cells)] = none := by
      simp [List.find?, h]
    rw [h2]
    simp

/-! ### Column-name and row-count preservation -/

theorem columns_mapColCells (t : Table) (c : String) (f : Cell → Cell) :
    (t.mapColCells c f).columns = t.columns := by
  unfold Table.mapColCells Table.columns
  rw [List.map_map]
  apply List.map_congr_left
  intro p _
  by_cases hp : p.1 = c <;> simp [hp]

theorem columns_mapAllCells (t : Table) (f : Cell → Cell) :
    (t.mapAllCells f).columns = t.columns := by
  unfold Table.mapAllCells Table.columns
  rw [List.map_map]
  rfl

theorem columns_setCol_of_hasCol (t : Table) {c : String} (cells : List Cell)
    (h : t.hasCol c = true) : (t.setCol c cells).columns = t.columns := by
  unfold Table.setCol
  rw [if_pos h]
  unfold Table.columns
  rw [List.map_map]
  apply List.map_congr_left
  intro p _
  by_cases hp : p.1 = c <;> simp [hp]

theorem columns_setCol_of_not_hasCol (t : Table) {c : String} (cells : List Cell)
    (h : ¬ t.hasCol c = true) : (t.setCol c cells).columns = t.columns ++ [c] := by
  unfold Table.setCol
  rw [if_neg h]
  unfold Table.columns
  simp

theorem hasCol_eq_of_columns_eq {t s : Table} (h : t.columns = s.columns) (c : String) :
    t.hasCol c = s.hasCol c := by
  by_cases ht : t.hasCol c = true
  · have := (hasCol_iff_mem_columns s c).mpr (h ▸ (hasCol_iff_mem_columns t c).mp ht)
    rw [ht, this]
  · by_cases hs : s.hasCol c = true
    · exact absurd ((hasCol_iff_mem_columns t c).mpr
        (h ▸ (hasCol_iff_mem_columns s c).mp hs)) ht
    · rw [Bool.eq_false_iff.mpr ht, Bool.eq_false_iff.mpr hs]

theorem columns_imputeCol (fill : Cell) (t : Table) (c : String) :
    (imputeCol fill t c).columns = t.columns := by
  unfold imputeCol
  rcases hf : t.getCol c with _ | cells
  · rfl
  · show (if (cells.any fun x => decide (x = Cell.na)) = true then
        t.setCol c (cells.map (fillNA fill)) else t).columns = t.columns
    by_cases hna : (cells.any fun x => decide (x = Cell.na)) = true
    · rw [if_pos hna]
      exact columns_setCol_of_hasCol t _ (hasCol_of_getCol_eq_some hf)
    · rw [if_neg hna]

theorem columns_foldl {α : Type} (step : Table → α → Table) (l : List α)
    (hs : ∀ a ∈ l, ∀ s, (step s a).columns = s.columns) :
    ∀ t, (l.foldl step t).columns = t.columns := by
  induction l with
  | nil => intro t; rfl
  | cons a rest ih =>
    intro t
    rw [List.foldl_cons, ih (fun x hx s => hs x (List.mem_cons_of_mem a hx) s),
      hs a (List.mem_cons_self a rest) t]

theorem columns_applyMappings (maps : List (String × List (Cell × ℚ))) (t : Table) :
    (applyMappings maps t).columns = t.columns := by
  unfold applyMappings
  apply columns_foldl
  intro p _ s
  by_cases hp : s.hasCol p.1 = true
  · rw [if_pos hp]
    exact columns_setCol_of_hasCol s _ hp
  · rw [if_neg hp]

theorem columns_ecogStep (t : Table) : (ecogStep t).columns = t.columns := by
  unfold ecogStep
  by_cases h : t.hasCol "ECOG_Score" = true
  · rw [if_pos h]
    exact columns_mapColCells t _ _
  · rw [if_neg h]

theorem columns_imputeNumericLoop (b : ModelBundle) (nums : List String) (t : Table) :
    (imputeNumericLoop b nums t).columns = t.columns := by
  unfold imputeNumericLoop
  apply columns_foldl
  intro c _ s
  exact columns_imputeCol _ s c

theorem columns_imputeCategoricalLoop (b : ModelBundle) (cats : List String) (t : Table) :
    (imputeCategoricalLoop b cats t).columns = t.columns := by
  unfold imputeCategoricalLoop
  apply columns_foldl
  intro c _ s
  exact columns_imputeCol _ s c

theorem columns_preprocess (b : ModelBundle) (t : Table) :
    (preprocess b t).columns = t.columns := by
  unfold preprocess
  rw [columns_ecogStep, columns_applyMappings, columns_imputeCategoricalLoop,
    columns_imputeNumericLoop, columns_foldl, columns_mapAllCells]
  intro c _ s
  exact columns_mapColCells s c coerceCell

/-! ### Behaviour of the guarded imputation step -/

theorem getCol_imputeCol_ne (fill : Cell) (t : Table) {d c : String} (h : d ≠ c) :
    (imputeCol fill t d).getCol c = t.getCol c := by
  unfold imputeCol
  rcases hf : t.getCol d with _ | cells
  · rfl
  · show (if (cells.any fun x => decide (x = Cell.na)) = true then
        t.setCol d (cells.map (fillNA fill)) else t).getCol c = t.getCol c
    by_cases hna : (cells.any fun x => decide (x = Cell.na)) = true
    · rw [if_pos hna]
      exact getCol_setCol_ne t _ h
    · rw [if_neg hna]

theorem imputeCol_of_noNA {t : Table} {c : String} {cells : List Cell} (fill : Cell)
    (h : t.getCol c = some cells) (hna : (cells.any fun x => decide (x = Cell.na)) = false) :
    imputeCol fill t c = t := by
  unfold imputeCol
  rw [h]
  show (if (cells.any fun x => decide (x = Cell.na)) = true then
      t.setCol c (cells.map (fillNA fill)) else t) = t
  rw [hna]
  simp

theorem getCol_imputeCol_fills {t : Table} {c : String} {cells : List Cell} (fill : Cell)
    (h : t.getCol c = some cells) (hna : (cells.any fun x => decide (x = Cell.na)) = true) :
    (imputeCol fill t c).getCol c = some (cells.map (fillNA fill)) := by
  unfold imputeCol
  rw [h]
  show (if (cells.any fun x => decide (x = Cell.na)) = true then
      t.setCol c (cells.map (fillNA fill)) else t).getCol c = some (cells.map (fillNA fill))
  rw [if_pos hna]
  exact getCol_setCol_self t c _

theorem getCol_foldl_preserved {α : Type} (step : Table → α → Table) (c : String) (l : List α)
    (hs : ∀ a ∈ l, ∀ s, (step s a).getCol c = s.getCol c) :
    ∀ t, (l.foldl step t).getCol c = t.getCol c := by
  induction l with
  | nil => intro t; rfl
  | cons a rest ih =>
    intro t
    rw [List.foldl_cons, ih (fun x hx s => hs x (List.mem_cons_of_mem a hx) s),
      hs a (List.mem_cons_self a rest) t]

theorem getCol_foldl_imputeCol_mem (fillOf : String → Cell) {c : String} {l : List String}
    (hnd : l.Nodup) (hc : c ∈ l) {t : Table} {cells : List Cell}
    (h : t.getCol c = some cells) (hna : (cells.any fun x => decide (x = Cell.na)) = true) :
    (l.foldl (fun s a => imputeCol (fillOf a) s a) t).getCol c =
      some (cells.map (fillNA (fillOf c))) := by
  rcases List.append_of_mem hc with ⟨l1, l2, rfl⟩
  have hdisj := List.disjoint_of_nodup_append hnd
  have hc1 : c ∉ l1 := fun hmem => hdisj hmem (List.mem_cons_self c l2)
  have hc2 : c ∉ l2 := by
    have := (List.Nodup.of_append_right hnd)
    exact (List.nodup_cons.mp this).1
  rw [List.foldl_append, List.foldl_cons]
  have h1 : (l1.foldl (fun s a => imputeCol (fillOf a) s a) t).getCol c = some cells := by
    rw [getCol_foldl_preserved _ c l1 ?_ t]
    · exact h
    · intro a ha s
      exact getCol_imputeCol_ne _ s (fun he => hc1 (he ▸ ha))
  rw [getCol_foldl_preserved _ c l2 ?_ _]
  · exact getCol_imputeCol_fills _ h1 hna
  · intro a ha s
    exact getCol_imputeCol_ne _ s (fun he => hc2 (he ▸ ha))

/-! ### Absence of missing values -/

/-- Column `c` of `t` (when present) holds no missing cell. -/
def colNaFree (t : Table) (c : String) : Prop :=
  ∀ cells, t.getCol c = some cells → Cell.na ∉ cells

theorem fillNA_ne_na {fill : Cell} (hfill : fill ≠ Cell.na) (x : Cell) :
    fillNA fill x ≠ Cell.na := by
  unfold fillNA
  by_cases hx : x = Cell.na
  · rw [if_pos hx]
    exact hfill
  · rw [if_neg hx]
    exact hx

theorem imputeCol_of_getCol_none {t : Table} {c : String} (fill : Cell)
    (h : t.getCol c = none) : imputeCol fill t c = t := by
  unfold imputeCol
  rw [h]

theorem colNaFree_imputeCol_self {fill : Cell} (hfill : fill ≠ Cell.na) (t : Table) (c : String) :
    colNaFree (imputeCol fill t c) c := by
  intro cells' hc'
  rcases hf : t.getCol c with _ | cells
  · rw [imputeCol_of_getCol_none fill hf, hf] at hc'
    cases hc'
  · by_cases hna : (cells.any fun x => decide (x = Cell.na)) = true
    · rw [getCol_imputeCol_fills fill hf hna] at hc'
      intro hmem
      rw [Option.some.injEq] at hc'
      rw [← hc'] at hmem
      rcases List.mem_map.mp hmem with ⟨x, _, hx⟩
      exact fillNA_ne_na hfill x hx
    · rw [imputeCol_of_noNA fill hf (Bool.eq_false_iff.mpr hna), hf] at hc'
      rw [Option.some.injEq] at hc'
      intro hmem
      rw [← hc'] at hmem
      have := List.any_eq_false.mp (Bool.eq_false_iff.mpr hna) Cell.na hmem
      simp at this

theorem colNaFree_imputeCol_preserve {fill : Cell} (hfill : fill ≠ Cell.na) (t : Table)
    (d c : String) (h : colNaFree t c) : colNaFree (imputeCol fill t d) c := by
  by_cases hd : d = c
  · rw [hd]
    exact colNaFree_imputeCol_self hfill t c
  · intro cells' hc'
    rw [getCol_imputeCol_ne fill t hd] at hc'
    exact h cells' hc'

theorem colNaFree_foldl_mem {step : Table → String → Table}
    (hestab : ∀ s a, colNaFree (step s a) a)
    (hpres : ∀ s a c, colNaFree s c → colNaFree (step s a) c)
    {c : String} {l : List String} (hc : c ∈ l) :
    ∀ t, colNaFree (l.foldl step t) c := by
  induction l with
  | nil => cases hc
  | cons a rest ih =>
    intro t
    rw [List.foldl_cons]
    rcases List.mem_cons.mp hc with h1 | h2
    · by_cases hr : c ∈ rest
      · exact ih hr _
      · have : ∀ s, colNaFree s c → colNaFree (rest.foldl step s) c := by
          intro s hs
          clear ih hc
          induction rest generalizing s with
          | nil => exact hs
          | cons b rb ihb =>
            rw [List.foldl_cons]
            exact ihb (fun hh => hr (List.mem_cons_of_mem b hh)) _ (hpres s b c hs)
        exact this _ (h1 ▸ hestab t a)
    · exact ih h2 _

theorem colNaFree_foldl_preserve {step : Table → String → Table}
    (hpres : ∀ s a c, colNaFree s c → colNaFree (step s a) c)
    (c : String) (l : List String) :
    ∀ t, colNaFree t c → colNaFree (l.foldl step t) c := by
  induction l with
  | nil => intro t ht; exact ht
  | cons a rest ih =>
    intro t ht
    rw [List.foldl_cons]
    exact ih _ (hpres t a c ht)

theorem applyMapping_ne_na (m : List (Cell × ℚ)) (x : Cell) : applyMapping m x ≠ Cell.na := by
  unfold applyMapping
  rcases hf : m.find? (fun p => p.1 = x) with _ | p
  · rw [hf]
    simp
  · rw [hf]
    simp

theorem ecogCoerce_num (x : Cell) : ∃ q, ecogCoerce x = Cell.num q := by
  unfold ecogCoerce coerceCell
  rcases x with _ | s | q
  · exact ⟨-1, rfl⟩
  · rcases hp : parseNum s with _ | v
    · exact ⟨-1, by simp [hp]⟩
    · exact ⟨v, by simp [hp]⟩
  · exact ⟨q, rfl⟩

theorem ecogCoerce_ne_na (x : Cell) : ecogCoerce x ≠ Cell.na := by
  rcases ecogCoerce_num x with ⟨q, hq⟩
  rw [hq]
  intro h
  cases h

theorem hasCol_false_of_getCol_none {t : Table} {c : String} (h : t.getCol c = none) :
    t.hasCol c = false := by
  rw [← Bool.not_eq_true]
  intro hh
  rcases getCol_eq_some_of_hasCol hh with ⟨cs, hcs⟩
  rw [hcs] at h
  cases h

theorem colNaFree_mapColCells {f : Cell → Cell} (hf : ∀ x, f x ≠ Cell.na)
    (t : Table) (d c : String) (h : colNaFree t c) : colNaFree (t.mapColCells d f) c := by
  by_cases hd : d = c
  · subst hd
    intro cells' hc'
    rcases hg : t.getCol d with _ | cells
    · have h1 : (t.mapColCells d f).hasCol d = false := by
        rw [hasCol_eq_of_columns_eq (columns_mapColCells t d f) d]
        exact hasCol_false_of_getCol_none hg
      rw [hasCol_of_getCol_eq_some hc'] at h1
      cases h1
    · rw [getCol_mapColCells_self f hg] at hc'
      intro hmem
      rw [Option.some.injEq] at hc'
      rw [← hc'] at hmem
      rcases List.mem_map.mp hmem with ⟨x, _, hx⟩
      exact hf x hx
  · intro cells' hc'
    rw [getCol_mapColCells_ne t f hd] at hc'
    exact h cells' hc'

theorem colNaFree_setCol_map {g : Cell → Cell} (hg : ∀ x, g x ≠ Cell.na)
    (t : Table) (c : String) (cells : List Cell) :
    colNaFree (t.setCol c (cells.map g)) c := by
  intro cells' hc'
  rw [getCol_setCol_self] at hc'
  rw [Option.some.injEq] at hc'
  intro hmem
  rw [← hc'] at hmem
  rcases List.mem_map.mp hmem with ⟨x, _, hx⟩
  exact hg x hx

theorem colNaFree_applyMappings (maps : List (String × List (Cell × ℚ))) (t : Table)
    (c : String) (h : colNaFree t c) : colNaFree (applyMappings maps t) c := by
  unfold applyMappings
  induction maps generalizing t with
  | nil => exact h
  | cons p rest ih =>
    rw [List.foldl_cons]
    apply ih
    by_cases hp : t.hasCol p.1 = true
    · rw [if_pos hp]
      by_cases hc : p.1 = c
      · subst hc
        exact colNaFree_setCol_map (applyMapping_ne_na p.2) t p.1 _
      · intro cells' hc'
        rw [getCol_setCol_ne t _ hc] at hc'
        exact h cells' hc'
    · rw [if_neg hp]
      exact h

theorem colNaFree_ecogStep (t : Table) (c : String) (h : colNaFree t c) :
    colNaFree (ecogStep t) c := by
  unfold ecogStep
  by_cases he : t.hasCol "ECOG_Score" = true
  · rw [if_pos he]
    exact colNaFree_mapColCells ecogCoerce_ne_na t _ c h
  · rw [if_neg he]
    exact h

theorem num_ne_na (q : ℚ) : Cell.num q ≠ Cell.na := by
  intro h
  cases h

theorem colNaFree_imputeNumericLoop_mem (b : ModelBundle) {nums : List String} {c : String}
    (hc : c ∈ nums) (t : Table) : colNaFree (imputeNumericLoop b nums t) c := by
  unfold imputeNumericLoop
  exact colNaFree_foldl_mem
    (fun s a => colNaFree_imputeCol_self (num_ne_na _) s a)
    (fun s a d hd => colNaFree_imputeCol_preserve (num_ne_na _) s a d hd) hc t

theorem colNaFree_imputeCategoricalLoop_mem (b : ModelBundle)
    (hfillcat : ∀ a, b.imputer_categorical_fill a ≠ Cell.na) {cats : List String} {c : String}
    (hc : c ∈ cats) (t : Table) : colNaFree (imputeCategoricalLoop b cats t) c := by
  unfold imputeCategoricalLoop
  exact colNaFree_foldl_mem
    (fun s a => colNaFree_imputeCol_self (hfillcat a) s a)
    (fun s a d hd => colNaFree_imputeCol_preserve (hfillcat a) s a d hd) hc t

theorem colNaFree_imputeCategoricalLoop_preserve (b : ModelBundle)
    (hfillcat : ∀ a, b.imputer_categorical_fill a ≠ Cell.na) (cats : List String) (c : String)
    (t : Table) (h : colNaFree t c) : colNaFree (imputeCategoricalLoop b cats t) c := by
  unfold imputeCategoricalLoop
  exact colNaFree_foldl_preserve
    (fun s a d hd => colNaFree_imputeCol_preserve (hfillcat a) s a d hd) c cats t h

theorem preprocess_colNaFree (b : ModelBundle) (t : Table)
    (hcover : ∀ c ∈ b.best_features, c ∈ b.pure_numeric_features ∨ c ∈ b.categorical_features)
    (hfillcat : ∀ a, b.imputer_categorical_fill a ≠ Cell.na)
    (hpresent : ∀ c ∈ b.best_features, t.hasCol c = true) :
    ∀ c ∈ b.best_features, colNaFree (preprocess b t) c := by
  intro c hc
  have hpre : preprocess b t =
      ecogStep (applyMappings b.manual_mappings
        (imputeCategoricalLoop b (categoricalInModel b (t.mapAllCells replaceMissing))
          (imputeNumericLoop b (numericInModel b (t.mapAllCells replaceMissing))
            ((numericInModel b (t.mapAllCells replaceMissing)).foldl
              (fun s d => s.mapColCells d coerceCell) (t.mapAllCells replaceMissing))))) := rfl
  rw [hpre]
  apply colNaFree_ecogStep
  apply colNaFree_applyMappings
  have hhas2 : (t.mapAllCells replaceMissing).hasCol c = true := by
    rw [hasCol_eq_of_columns_eq (columns_mapAllCells t replaceMissing) c]
    exact hpresent c hc
  rcases hcover c hc with hnum | hcat
  · have hmemnum : c ∈ numericInModel b (t.mapAllCells replaceMissing) := by
      unfold numericInModel
      exact List.mem_filter.mpr ⟨hnum, by simpa using hhas2⟩
    apply colNaFree_imputeCategoricalLoop_preserve b hfillcat
    exact colNaFree_imputeNumericLoop_mem b hmemnum _
  · have hmemcat : c ∈ categoricalInModel b (t.mapAllCells replaceMissing) := by
      unfold categoricalInModel
      exact List.mem_filter.mpr ⟨hcat, by simpa using hhas2⟩
    exact colNaFree_imputeCategoricalLoop_mem b hfillcat hmemcat _

/-! ### Tracing the ECOG column through preprocessing -/

theorem preprocess_ecog_col (b : ModelBundle) (t : Table)
    (h1 : "ECOG_Score" ∉ b.pure_numeric_features)
    (h2 : "ECOG_Score" ∉ b.categorical_features)
    (h3 : ∀ p ∈ b.manual_mappings, p.1 ≠ "ECOG_Score")
    {cells : List Cell} (h : t.getCol "ECOG_Score" = some cells) :
    (preprocess b t).getCol "ECOG_Score" =
      some ((cells.map replaceMissing).map ecogCoerce) := by
  have hpre : preprocess b t =
      ecogStep (applyMappings b.manual_mappings
        (imputeCategoricalLoop b (categoricalInModel b (t.mapAllCells replaceMissing))
          (imputeNumericLoop b (numericInModel b (t.mapAllCells replaceMissing))
            ((numericInModel b (t.mapAllCells replaceMissing)).foldl
              (fun s d => s.mapColCells d coerceCell) (t.mapAllCells replaceMissing))))) := rfl
  rw [hpre]
  have ht2 : (t.mapAllCells replaceMissing).getCol "ECOG_Score" =
      some (cells.map replaceMissing) := by
    rw [getCol_mapAllCells, h]
    rfl
  have ht3 : ((numericInModel b (t.mapAllCells replaceMissing)).foldl
      (fun s d => s.mapColCells d coerceCell) (t.mapAllCells replaceMissing)).getCol
        "ECOG_Score" = some (cells.map replaceMissing) := by
    rw [getCol_foldl_preserved _ _ _ ?_ _]
    · exact ht2
    · intro a ha s
      apply getCol_mapColCells_ne
      intro he
      exact h1 (he ▸ (List.mem_filter.mp ha).1)
  have ht4 : (imputeNumericLoop b (numericInModel b (t.mapAllCells replaceMissing))
      ((numericInModel b (t.mapAllCells replaceMissing)).foldl
        (fun s d => s.mapColCells d coerceCell) (t.mapAllCells replaceMissing))).getCol
          "ECOG_Score" = some (cells.map replaceMissing) := by
    unfold imputeNumericLoop
    rw [getCol_foldl_preserved _ _ _ ?_ _]
    · exact ht3
    · intro a ha s
      apply getCol_imputeCol_ne
      intro he
      exact h1 (he ▸ (List.mem_filter.mp ha).1)
  have ht5 : (imputeCategoricalLoop b (categoricalInModel b (t.mapAllCells replaceMissing))
      (imputeNumericLoop b (numericInModel b (t.mapAllCells replaceMissing))
        ((numericInModel b (t.mapAllCells replaceMissing)).foldl
          (fun s d => s.mapColCells d coerceCell) (t.mapAllCells replaceMissing)))).getCol
            "ECOG_Score" = some (cells.map replaceMissing) := by
    unfold imputeCategoricalLoop
    rw [getCol_foldl_preserved _ _ _ ?_ _]
    · exact ht4
    · intro a ha s
      apply getCol_imputeCol_ne
      intro he
      exact h2 (he ▸ (List.mem_filter.mp ha).1)
  have ht6 : (applyMappings b.manual_mappings
      (imputeCategoricalLoop b (categoricalInModel b (t.mapAllCells replaceMissing))
        (imputeNumericLoop b (numericInModel b (t.mapAllCells replaceMissing))
          ((numericInModel b (t.mapAllCells replaceMissing)).foldl
            (fun s d => s.mapColCells d coerceCell) (t.mapAllCells replaceMissing))))).getCol
              "ECOG_Score" = some (cells.map replaceMissing) := by
    unfold applyMappings
    rw [getCol_foldl_preserved _ _ _ ?_ _]
    · exact ht5
    · intro p hp s
      by_cases hh : s.hasCol p.1 = true
      · rw [if_pos hh]
        exact getCol_setCol_ne s _ (h3 p hp)
      · rw [if_neg hh]
  unfold ecogStep
  rw [if_pos (hasCol_of_getCol_eq_some ht6)]
  exact getCol_mapColCells_self ecogCoerce ht6

/-! ### The manual-mapping step on a mapped column -/

theorem applyMappings_mapped_col (maps : List (String × List (Cell × ℚ))) (t : Table)
    {c : String} {m : List (Cell × ℚ)} {cells : List Cell}
    (hmem : (c, m) ∈ maps) (hnd : (maps.map Prod.fst).Nodup)
    (hcol : t.getCol c = some cells) :
    (applyMappings maps t).getCol c = some (cells.map (applyMapping m)) := by
  rcases List.append_of_mem hmem with ⟨l1, l2, rfl⟩
  have hkeys : ((l1.map Prod.fst) ++ c :: (l2.map Prod.fst)).Nodup := by
    simpa using hnd
  have hc1 : ∀ p ∈ l1, p.1 ≠ c := by
    intro p hp he
    have hdisj := List.disjoint_of_nodup_append hkeys
    exact hdisj (List.mem_map.mpr ⟨p, hp, he⟩) (List.mem_cons_self c _)
  have hc2 : ∀ p ∈ l2, p.1 ≠ c := by
    intro p hp he
    have := (List.Nodup.of_append_right hkeys)
    exact (List.nodup_cons.mp this).1 (List.mem_map.mpr ⟨p, hp, he⟩)
  unfold applyMappings
  rw [List.foldl_append, List.foldl_cons]
  have h1 : (l1.foldl (fun s p => if s.hasCol p.1 = true then
      s.setCol p.1 (((s.getCol p.1).getD []).map (applyMapping p.2)) else s) t).getCol c =
      some cells := by
    rw [getCol_foldl_preserved _ _ _ ?_ _]
    · exact hcol
    · intro p hp s
      by_cases hh : s.hasCol p.1 = true
      · rw [if_pos hh]
        exact getCol_setCol_ne s _ (hc1 p hp)
      · rw [if_neg hh]
  rw [getCol_foldl_preserved _ _ _ ?_ _]
  · rw [if_pos (hasCol_of_getCol_eq_some h1)]
    rw [h1]
    show (Table.setCol _ c (cells.map (applyMapping m))).getCol c = _
    exact getCol_setCol_self _ c _
  · intro p hp s
    by_cases hh : s.hasCol p.1 = true
    · rw [if_pos hh]
      exact getCol_setCol_ne s _ (hc2 p hp)
    · rw [if_neg hh]

/-! ### Per-column behaviour of the imputation loops -/

theorem imputeNumericLoop_fills (b : ModelBundle) {nums : List String} {c : String}
    {t : Table} {cells : List Cell} (hnd : nums.Nodup) (hc : c ∈ nums)
    (h : t.getCol c = some cells) (hna : (cells.any fun x => decide (x = Cell.na)) = true) :
    (imputeNumericLoop b nums t).getCol c =
      some (cells.map (fillNA (Cell.num (b.imputer_numeric_fill c)))) := by
  unfold imputeNumericLoop
  exact getCol_foldl_imputeCol_mem (fun a => Cell.num (b.imputer_numeric_fill a)) hnd hc h hna

theorem imputeCategoricalLoop_fills (b : ModelBundle) {cats : List String} {c : String}
    {t : Table} {cells : List Cell} (hnd : cats.Nodup) (hc : c ∈ cats)
    (h : t.getCol c = some cells) (hna : (cells.any fun x => decide (x = Cell.na)) = true) :
    (imputeCategoricalLoop b cats t).getCol c =
      some (cells.map (fillNA (b.imputer_categorical_fill c))) := by
  unfold imputeCategoricalLoop
  exact getCol_foldl_imputeCol_mem b.imputer_categorical_fill hnd hc h hna

/-! ### Row-count preservation -/

theorem getCol_length_of_uniform {t : Table} {n : Nat} (hu : t.uniform n)
    {c : String} {cells : List Cell} (h : t.getCol c = some cells) : cells.length = n := by
  unfold Table.getCol at h
  rcases hf : t.cols.find? (fun p => p.1 = c) with _ | p
  · rw [hf] at h
    cases h
  · rw [hf] at h
    have hmem := List.mem_of_find?_eq_some hf
    have hlen := hu p hmem
    simp only [Option.map_some', Option.some.injEq] at h
    rw [← h]
    exact hlen

theorem uniform_setCol {t : Table} {n : Nat} (hu : t.uniform n) (c : String)
    {cells : List Cell} (hlen : cells.length = n) : (t.setCol c cells).uniform n := by
  unfold Table.setCol
  by_cases hc : t.hasCol c = true
  · rw [if_pos hc]
    intro p hp
    rcases List.mem_map.mp hp with ⟨p0, hp0, he⟩
    by_cases h0 : p0.1 = c
    · rw [if_pos h0] at he
      rw [← he]
      exact hlen
    · rw [if_neg h0] at he
      rw [← he]
      exact hu p0 hp0
  · rw [if_neg hc]
    intro p hp
    rcases List.mem_append.mp hp with h1 | h2
    · exact hu p h1
    · rw [List.mem_singleton.mp h2]
      exact hlen

theorem uniform_mapColCells {t : Table} {n : Nat} (hu : t.uniform n) (c : String)
    (f : Cell → Cell) : (t.mapColCells c f).uniform n := by
  unfold Table.mapColCells
  intro p hp
  rcases List.mem_map.mp hp with ⟨p0, hp0, he⟩
  by_cases h0 : p0.1 = c
  · rw [if_pos h0] at he
    rw [← he]
    simpa using hu p0 hp0
  · rw [if_neg h0] at he
    rw [← he]
    exact hu p0 hp0

theorem uniform_mapAllCells {t : Table} {n : Nat} (hu : t.uniform n)
    (f : Cell → Cell) : (t.mapAllCells f).uniform n := by
  unfold Table.mapAllCells
  intro p hp
  rcases List.mem_map.mp hp with ⟨p0, hp0, he⟩
  rw [← he]
  simpa using hu p0 hp0

theorem uniform_imputeCol {t : Table} {n : Nat} (hu : t.uniform n) (fill : Cell)
    (c : String) : (imputeCol fill t c).uniform n := by
  rcases hf : t.getCol c with _ | cells
  · rw [imputeCol_of_getCol_none fill hf]
    exact hu
  · by_cases hna : (cells.any fun x => decide (x = Cell.na)) = true
    · unfold imputeCol
      rw [hf]
      show (if (cells.any fun x => decide (x = Cell.na)) = true then
          t.setCol c (cells.map (fillNA fill)) else t).uniform n
      rw [if_pos hna]
      apply uniform_setCol hu c
      rw [List.length_map]
      exact getCol_length_of_uniform hu hf
    · rw [imputeCol_of_noNA fill hf (Bool.eq_false_iff.mpr hna)]
      exact hu

theorem uniform_foldl {α : Type} (step : Table → α → Table) (l : List α) {n : Nat}
    (hs : ∀ a ∈ l, ∀ s : Table, s.uniform n → (step s a).uniform n) :
    ∀ t : Table, t.uniform n → (l.foldl step t).uniform n := by
  induction l with
  | nil => intro t ht; exact ht
  | cons a rest ih =>
    intro t ht
    rw [List.foldl_cons]
    exact ih (fun x hx s hsu => hs x (List.mem_cons_of_mem a hx) s hsu) _
      (hs a (List.mem_cons_self a rest) t ht)

theorem uniform_applyMappings (maps : List (String × List (Cell × ℚ))) {t : Table} {n : Nat}
    (hu : t.uniform n) : (applyMappings maps t).uniform n := by
  unfold applyMappings
  apply uniform_foldl _ _ ?_ t hu
  intro p _ s hsu
  by_cases hh : s.hasCol p.1 = true
  · rw [if_pos hh]
    rcases getCol_eq_some_of_hasCol hh with ⟨cells, hcells⟩
    apply uniform_setCol hsu
    rw [hcells]
    show (cells.map (applyMapping p.2)).length = n
    rw [List.length_map]
    exact getCol_length_of_uniform hsu hcells
  · rw [if_neg hh]
    exact hsu

theorem uniform_ecogStep {t : Table} {n : Nat} (hu : t.uniform n) :
    (ecogStep t).uniform n := by
  unfold ecogStep
  by_cases he : t.hasCol "ECOG_Score" = true
  · rw [if_pos he]
    exact uniform_mapColCells hu _ _
  · rw [if_neg he]
    exact hu

theorem uniform_preprocess (b : ModelBundle) {t : Table} {n : Nat} (hu : t.uniform n) :
    (preprocess b t).uniform n := by
  have hpre : preprocess b t =
      ecogStep (applyMappings b.manual_mappings
        (imputeCategoricalLoop b (categoricalInModel b (t.mapAllCells replaceMissing))
          (imputeNumericLoop b (numericInModel b (t.mapAllCells replaceMissing))
            ((numericInModel b (t.mapAllCells replaceMissing)).foldl
              (fun s d => s.mapColCells d coerceCell) (t.mapAllCells replaceMissing))))) := rfl
  rw [hpre]
  apply uniform_ecogStep
  apply uniform_applyMappings
  unfold imputeCategoricalLoop
  apply uniform_foldl _ _ (fun a _ s hsu => uniform_imputeCol hsu _ a) _
  unfold imputeNumericLoop
  apply uniform_foldl _ _ (fun a _ s hsu => uniform_imputeCol hsu _ a) _
  apply uniform_foldl _ _ (fun a _ s hsu => uniform_mapColCells hsu a coerceCell) _
  exact uniform_mapAllCells hu replaceMissing

theorem uniform_select {t : Table} {n : Nat} (hu : t.uniform n) (names : List String) :
    (t.select names).uniform n := by
  unfold Table.select
  intro p hp
  rcases List.mem_filterMap.mp hp with ⟨c, _, hc⟩
  rcases hg : t.getCol c with _ | cells
  · rw [hg] at hc
    cases hc
  · rw [hg] at hc
    simp only [Option.map_some', Option.some.injEq] at hc
    rw [← hc]
    exact getCol_length_of_uniform hu hg

theorem numRows_of_uniform {t : Table} {n : Nat} (hu : t.uniform n)
    (hne : t.cols ≠ []) : t.numRows = n := by
  unfold Table.numRows
  rcases hc : t.cols with _ | ⟨p, rest⟩
  · exact absurd hc hne
  · have hmem : p ∈ t.cols := by
      rw [hc]
      exact List.mem_cons_self p rest
    simpa using hu p hmem

/-! ### The risk-grouping cascade -/

theorem qcut_ok_length {scores : List ℚ} {qn : Nat} {labels : List String}
    {cells : List Cell} (h : qcut scores qn labels = Except.ok cells) :
    cells.length = scores.length := by
  have hq : qcut scores qn labels =
      (if labels.length ≠ (dedupAdj (qcutEdges scores qn)).length - 1 then
        Except.error "Bin labels must be one fewer than the number of bin edges"
      else Except.ok (scores.map (qcutLabelCell labels (dedupAdj (qcutEdges scores qn))))) := rfl
  rw [hq] at h
  by_cases hcond : labels.length ≠ (dedupAdj (qcutEdges scores qn)).length - 1
  · rw [if_pos hcond] at h
    cases h
  · rw [if_neg hcond] at h
    rw [Except.ok.injEq] at h
    rw [← h, List.length_map]

theorem qcut_ok_iff (scores : List ℚ) (qn : Nat) (labels : List String) :
    (∃ cells, qcut scores qn labels = Except.ok cells ∧ cells.length = scores.length) ↔
      labels.length = (dedupAdj (qcutEdges scores qn)).length - 1 := by
  have hq : qcut scores qn labels =
      (if labels.length ≠ (dedupAdj (qcutEdges scores qn)).length - 1 then
        Except.error "Bin labels must be one fewer than the number of bin edges"
      else Except.ok (scores.map (qcutLabelCell labels (dedupAdj (qcutEdges scores qn))))) := rfl
  by_cases hcond : labels.length ≠ (dedupAdj (qcutEdges scores qn)).length - 1
  · rw [hq, if_pos hcond]
    constructor
    · rintro ⟨cells, hc, _⟩
      cases hc
    · intro h
      exact absurd h hcond
  · rw [hq, if_neg hcond]
    constructor
    · intro _
      exact not_not.mp hcond
    · intro _
      exact ⟨_, rfl, by rw [List.length_map]⟩

theorem riskGroupColumn_eq_three {scores : List ℚ} (h : 3 ≤ scores.dedup.length) :
    riskGroupColumn scores = qcut scores 3 ["Low", "Medium", "High"] := by
  have hr : riskGroupColumn scores =
      (if 3 ≤ scores.dedup.length then qcut scores 3 ["Low", "Medium", "High"]
      else if scores.dedup.length = 2 then qcut scores 2 ["Low", "High"]
      else Except.ok (scores.map (fun _ => Cell.str "Medium"))) := rfl
  rw [hr, if_pos h]

theorem riskGroupColumn_eq_two {scores : List ℚ} (h : scores.dedup.length = 2) :
    riskGroupColumn scores = qcut scores 2 ["Low", "High"] := by
  have hr : riskGroupColumn scores =
      (if 3 ≤ scores.dedup.length then qcut scores 3 ["Low", "Medium", "High"]
      else if scores.dedup.length = 2 then qcut scores 2 ["Low", "High"]
      else Except.ok (scores.map (fun _ => Cell.str "Medium"))) := rfl
  rw [hr, if_neg (by omega), if_pos h]

theorem riskGroupColumn_eq_const {scores : List ℚ} (h : scores.dedup.length ≤ 1) :
    riskGroupColumn scores = Except.ok (scores.map (fun _ => Cell.str "Medium")) := by
  have hr : riskGroupColumn scores =
      (if 3 ≤ scores.dedup.length then qcut scores 3 ["Low", "Medium", "High"]
      else if scores.dedup.length = 2 then qcut scores 2 ["Low", "High"]
      else Except.ok (scores.map (fun _ => Cell.str "Medium"))) := rfl
  rw [hr, if_neg (by omega), if_neg (by omega)]

theorem riskGroupColumn_ok_length {scores : List ℚ} {cells : List Cell}
    (h : riskGroupColumn scores = Except.ok cells) : cells.length = scores.length := by
  by_cases h3 : 3 ≤ scores.dedup.length
  · rw [riskGroupColumn_eq_three h3] at h
    exact qcut_ok_length h
  · by_cases h2 : scores.dedup.length = 2
    · rw [riskGroupColumn_eq_two h2] at h
      exact qcut_ok_length h
    · rw [riskGroupColumn_eq_const (by omega)] at h
      rw [Except.ok.injEq] at h
      rw [← h, List.length_map]

/-- C1: the risk-grouping cascade picks tertiles with labels Low, Medium,
High for at least 3 distinct scores, a median split with Low, High for
exactly 2 distinct scores, and the constant Medium otherwise — but in the
quantile branches the grouping succeeds exactly when the deduplicated
quantile edges still match the label count, and otherwise raises pandas'
label-count error instead of silently producing fewer groups. The three
concrete examples of the spec behave as stated: scores 1..6 give three
balanced monotone groups, two equal scores give Medium twice, and two
distinct scores give one Low and one High. -/
theorem C1_risk_grouping_cascade :
    (∀ scores : List ℚ, 3 ≤ scores.dedup.length →
      ((∃ cells, riskGroupColumn scores = Except.ok cells ∧ cells.length = scores.length) ↔
        (dedupAdj (qcutEdges scores 3)).length = 4))
  ∧ (∀ scores : List ℚ, scores.dedup.length = 2 →
      ((∃ cells, riskGroupColumn scores = Except.ok cells ∧ cells.length = scores.length) ↔
        (dedupAdj (qcutEdges scores 2)).length = 3))
  ∧ (∀ scores : List ℚ, scores.dedup.length ≤ 1 →
      riskGroupColumn scores = Except.ok (scores.map (fun _ => Cell.str "Medium")))
  ∧ riskGroupColumn [1, 2, 3, 4, 5, 6] = Except.ok [Cell.str "Low", Cell.str "Low",
      Cell.str "Medium", Cell.str "Medium", Cell.str "High", Cell.str "High"]
  ∧ riskGroupColumn [5, 5] = Except.ok [Cell.str "Medium", Cell.str "Medium"]
  ∧ riskGroupColumn [1, 2] = Except.ok [Cell.str "Low", Cell.str "High"] := by
  refine ⟨?_, ?_, ?_, ?_, ?_, ?_⟩
  · intro scores h
    rw [riskGroupColumn_eq_three h, qcut_ok_iff]
    simp only [List.length_cons, List.length_nil]
    omega
  · intro scores h
    rw [riskGroupColumn_eq_two h, qcut_ok_iff]
    simp only [List.length_cons, List.length_nil]
    omega
  · intro scores h
    exact riskGroupColumn_eq_const h
  · with_unfolding_all rfl
  · with_unfolding_all rfl
  · with_unfolding_all rfl

/-- Witness for C1 at the concrete score vector 1..6: the tertile branch
applies and its success condition (4 surviving edges) holds. -/
theorem C1_risk_grouping_cascade_witness :
    (3 ≤ ([(1 : ℚ), 2, 3, 4, 5, 6] : List ℚ).dedup.length) ∧
    ((∃ cells, riskGroupColumn [(1 : ℚ), 2, 3, 4, 5, 6] = Except.ok cells ∧
        cells.length = ([(1 : ℚ), 2, 3, 4, 5, 6] : List ℚ).length) ↔
      (dedupAdj (qcutEdges [(1 : ℚ), 2, 3, 4, 5, 6] 3)).length = 4) :=
  ⟨by with_unfolding_all decide,
    C1_risk_grouping_cascade.1 [1, 2, 3, 4, 5, 6] (by with_unfolding_all decide)⟩

/-- Counterexample to C1 as frozen: the scores 1,1,1,1,2,3 have exactly 3
distinct values, yet the risk grouping raises pandas' label-count error —
the duplicate tertile edge is dropped, the surviving bins no longer match
the 3 labels, and qcut raises rather than yielding fewer groups. -/
theorem C1_counterexample :
    ([(1 : ℚ), 1, 1, 1, 2, 3] : List ℚ).dedup.length = 3 ∧
    riskGroupColumn [1, 1, 1, 1, 2, 3] =
      Except.error "Bin labels must be one fewer than the number of bin edges" := by
  constructor
  · with_unfolding_all rfl
  · with_unfolding_all rfl

/-! ### Claim C2, C3, C10 theorems with sample data -/

theorem getCol_foldl_imputeCol_noNA (fillOf : String → Cell) (l : List String)
    {c : String} {cells : List Cell} (hna : (cells.any fun x => decide (x = Cell.na)) = false) :
    ∀ t : Table, t.getCol c = some cells →
      (l.foldl (fun s a => imputeCol (fillOf a) s a) t).getCol c = some cells := by
  induction l with
  | nil => intro t h; exact h
  | cons a rest ih =>
    intro t h
    rw [List.foldl_cons]
    apply ih
    by_cases ha : a = c
    · subst ha
      rw [imputeCol_of_noNA (fillOf a) h hna]
      exact h
    · rw [getCol_imputeCol_ne (fillOf a) t ha]
      exact h

/-- C2: when a numeric (resp. categorical) column listed in the bundle still
contains a missing entry, the corresponding imputation loop replaces exactly
the missing cells of that column with that column's own fitted fill value —
the resulting column depends only on the column's prior cells and the
per-column fill, so each column is imputed independently. -/
theorem C2_per_column_imputation :
    (∀ (b : ModelBundle) (t : Table) (c : String) (cells : List Cell),
      (numericInModel b t).Nodup → c ∈ numericInModel b t →
      t.getCol c = some cells → (cells.any fun x => decide (x = Cell.na)) = true →
      (imputeNumericLoop b (numericInModel b t) t).getCol c =
        some (cells.map (fillNA (Cell.num (b.imputer_numeric_fill c)))))
  ∧ (∀ (b : ModelBundle) (t : Table) (c : String) (cells : List Cell),
      (categoricalInModel b t).Nodup → c ∈ categoricalInModel b t →
      t.getCol c = some cells → (cells.any fun x => decide (x = Cell.na)) = true →
      (imputeCategoricalLoop b (categoricalInModel b t) t).getCol c =
        some (cells.map (fillNA (b.imputer_categorical_fill c)))) :=
  ⟨fun b _ _ _ hnd hc h hna => imputeNumericLoop_fills b hnd hc h hna,
   fun b _ _ _ hnd hc h hna => imputeCategoricalLoop_fills b hnd hc h hna⟩

/-- Sample bundle for witnesses: one numeric and one categorical feature,
a manual mapping for the categorical one. -/
def wBundle : ModelBundle :=
  ⟨["Age", "Sex"], ["Age"], ["Sex"], [("Sex", [(Cell.str "M", 1), (Cell.str "F", 0)])],
    fun _ => 42, fun _ => Cell.str "M", fun row => cellToRat (row.headD Cell.na)⟩

/-- Sample two-row table for witnesses, with a missing cell in each column. -/
def wTable : Table :=
  ⟨[("Age", [Cell.na, Cell.num 1]), ("Sex", [Cell.str "M", Cell.na])]⟩

/-- Witness for C2 on the sample: the Age column, which has a missing cell,
comes out of the numeric loop with exactly its missing cell replaced by the
fitted fill 42. -/
theorem C2_per_column_imputation_witness :
    (([Cell.na, Cell.num 1] : List Cell).any fun x => decide (x = Cell.na)) = true ∧
    (imputeNumericLoop wBundle (numericInModel wBundle wTable) wTable).getCol "Age" =
      some ([Cell.na, Cell.num 1].map (fillNA (Cell.num (wBundle.imputer_numeric_fill "Age")))) :=
  ⟨by with_unfolding_all decide,
   C2_per_column_imputation.1 wBundle wTable "Age" [Cell.na, Cell.num 1]
     (by with_unfolding_all decide) (by with_unfolding_all decide)
     (by with_unfolding_all rfl) (by with_unfolding_all decide)⟩

/-- C3: after the whole preprocessing stage, provided the bundle's feature
partition covers every selected feature and the fitted categorical fills are
not themselves missing, every selected-feature column present in the input
contains no missing cell. -/
theorem C3_selected_fully_populated (b : ModelBundle) (t : Table)
    (hcover : ∀ c ∈ b.best_features, c ∈ b.pure_numeric_features ∨ c ∈ b.categorical_features)
    (hfillcat : ∀ a, b.imputer_categorical_fill a ≠ Cell.na)
    (hpresent : ∀ c ∈ b.best_features, t.hasCol c = true) :
    ∀ c ∈ b.best_features, ∀ cells, (preprocess b t).getCol c = some cells →
      Cell.na ∉ cells :=
  fun c hc cells hcells => preprocess_colNaFree b t hcover hfillcat hpresent c hc cells hcells

/-- Witness for C3 on the sample bundle and table: the preprocessed Age
column evaluates to a fully populated column. -/
theorem C3_selected_fully_populated_witness :
    (preprocess wBundle wTable).getCol "Age" = some [Cell.num 42, Cell.num 1] ∧
    Cell.na ∉ ([Cell.num 42, Cell.num 1] : List Cell) :=
  ⟨by with_unfolding_all rfl,
   C3_selected_fully_populated wBundle wTable (by with_unfolding_all decide)
     (fun a h => by simp [wBundle] at h) (by with_unfolding_all decide)
     "Age" (by with_unfolding_all decide) [Cell.num 42, Cell.num 1]
     (by with_unfolding_all rfl)⟩

/-- C10: a column that carries no missing cell when the imputation stage
begins passes through both the numeric and the categorical imputation loops
completely unchanged — the guard on each loop iteration skips it. -/
theorem C10_no_missing_passthrough (b : ModelBundle) (nums cats : List String)
    (t : Table) (c : String) (cells : List Cell) (h : t.getCol c = some cells)
    (hna : (cells.any fun x => decide (x = Cell.na)) = false) :
    (imputeCategoricalLoop b cats (imputeNumericLoop b nums t)).getCol c = some cells := by
  unfold imputeCategoricalLoop
  apply getCol_foldl_imputeCol_noNA _ _ hna
  unfold imputeNumericLoop
  exact getCol_foldl_imputeCol_noNA _ _ hna t h

/-- Witness for C10: a fully populated Age column is untouched by both
loops even though Age is listed as numeric. -/
theorem C10_no_missing_passthrough_witness :
    (([Cell.num 3, Cell.num 4] : List Cell).any fun x => decide (x = Cell.na)) = false ∧
    (imputeCategoricalLoop wBundle ["Age", "Sex"] (imputeNumericLoop wBundle ["Age", "Sex"]
      (Table.mk [("Age", [Cell.num 3, Cell.num 4]), ("Sex", [Cell.str "M", Cell.str "F"])]))).getCol
        "Age" = some [Cell.num 3, Cell.num 4] :=
  ⟨by with_unfolding_all decide,
   C10_no_missing_passthrough wBundle ["Age", "Sex"] ["Age", "Sex"]
     (Table.mk [("Age", [Cell.num 3, Cell.num 4]), ("Sex", [Cell.str "M", Cell.str "F"])])
     "Age" [Cell.num 3, Cell.num 4] (by with_unfolding_all rfl)
     (by with_unfolding_all decide)⟩

/-! ### Claims C5 and C6 -/

/-- C5 (amended): when ECOG_Score is not among the bundle's numeric or
categorical feature lists and has no manual mapping, the preprocessing
stage only coerces it — after sentinel replacement every cell is forced to
numeric with unparseable values becoming -1, and neither fitted imputer
touches the column; every resulting cell is numeric. -/
theorem C5_ecog_coercion (b : ModelBundle) (t : Table)
    (h1 : "ECOG_Score" ∉ b.pure_numeric_features)
    (h2 : "ECOG_Score" ∉ b.categorical_features)
    (h3 : ∀ p ∈ b.manual_mappings, p.1 ≠ "ECOG_Score")
    {cells : List Cell} (h : t.getCol "ECOG_Score" = some cells) :
    (preprocess b t).getCol "ECOG_Score" = some ((cells.map replaceMissing).map ecogCoerce)
  ∧ ∀ x ∈ (cells.map replaceMissing).map ecogCoerce, ∃ q, x = Cell.num q := by
  refine ⟨preprocess_ecog_col b t h1 h2 h3 h, ?_⟩
  intro x hx
  rcases List.mem_map.mp hx with ⟨y, _, hy⟩
  rcases ecogCoerce_num y with ⟨q, hq⟩
  exact ⟨q, hy ▸ hq⟩

/-- Bundle whose ECOG column is listed as a numeric feature: exercises the
generic numeric imputation path on ECOG_Score. -/
def eBundle : ModelBundle :=
  ⟨["ECOG_Score"], ["ECOG_Score"], [], [], fun _ => 7, fun _ => Cell.str "x", fun _ => 0⟩

/-- One-row table whose ECOG cell is unparseable. -/
def eTable : Table :=
  ⟨[("ECOG_Score", [Cell.str "bad"])]⟩

/-- Counterexample to C5 as frozen: with a bundle that lists ECOG_Score
among the numeric features, the unparseable ECOG cell is imputed by the
fitted numeric imputer (fill 7) before the ECOG coercion runs, so it ends
as the imputed statistic 7 and not as the sentinel -1 — the column is not
beyond the reach of the generic imputation path. -/
theorem C5_counterexample :
    eTable.getCol "ECOG_Score" = some [Cell.str "bad"] ∧
    parseNum "bad" = none ∧
    "ECOG_Score" ∈ eBundle.pure_numeric_features ∧
    (preprocess eBundle eTable).getCol "ECOG_Score" = some [Cell.num 7] ∧
    Cell.num 7 ≠ Cell.num (-1) := by
  refine ⟨?_, ?_, ?_, ?_, ?_⟩ <;> with_unfolding_all decide

/-- Bundle that leaves ECOG_Score outside all generic preprocessing lists. -/
def eBundle2 : ModelBundle :=
  ⟨["ECOG_Score"], [], [], [], fun _ => 7, fun _ => Cell.str "x", fun _ => 0⟩

/-- Two-row table with an unparseable and a numeric ECOG cell. -/
def eTable2 : Table :=
  ⟨[("ECOG_Score", [Cell.str "bad", Cell.num 2])]⟩

/-- Witness for the amended C5: with ECOG_Score outside the bundle's
feature lists, the unparseable cell becomes -1 and the numeric cell is kept. -/
theorem C5_ecog_coercion_witness :
    ("ECOG_Score" ∉ eBundle2.pure_numeric_features) ∧
    (preprocess eBundle2 eTable2).getCol "ECOG_Score" =
      some (([Cell.str "bad", Cell.num 2].map replaceMissing).map ecogCoerce) :=
  ⟨by with_unfolding_all decide,
   (C5_ecog_coercion eBundle2 eTable2 (by with_unfolding_all decide)
     (by with_unfolding_all decide) (by with_unfolding_all decide)
     (by with_unfolding_all rfl)).1⟩

/-- C6: the manual-mapping step rewrites a mapped column cell-wise through
its mapping, and the cell-wise rewriting sends every mapping key to its
numeric code and every non-key (missing cells included) to the sentinel
code -1. -/
theorem C6_manual_mapping (b : ModelBundle) (t : Table) {c : String}
    {m : List (Cell × ℚ)} {cells : List Cell}
    (hmem : (c, m) ∈ b.manual_mappings)
    (hnd : (b.manual_mappings.map Prod.fst).Nodup)
    (hcol : t.getCol c = some cells) :
    (applyMappings b.manual_mappings t).getCol c = some (cells.map (applyMapping m))
  ∧ ∀ x : Cell, (∃ p ∈ m, p.1 = x ∧ applyMapping m x = Cell.num p.2) ∨
      ((∀ p ∈ m, p.1 ≠ x) ∧ applyMapping m x = Cell.num (-1)) := by
  refine ⟨applyMappings_mapped_col b.manual_mappings t hmem hnd hcol, ?_⟩
  intro x
  rcases hf : m.find? (fun p => p.1 = x) with _ | p
  · right
    constructor
    · intro p hp he
      have := List.find?_eq_none.mp hf p hp
      simp [he] at this
    · unfold applyMapping
      rw [hf]
  · left
    refine ⟨p, List.mem_of_find?_eq_some hf, by simpa using List.find?_some hf, ?_⟩
    unfold applyMapping
    rw [hf]

/-- Witness for C6 on the sample: the Sex column maps M to code 1 and the
missing cell to -1. -/
theorem C6_manual_mapping_witness :
    (applyMappings wBundle.manual_mappings wTable).getCol "Sex" =
      some ([Cell.str "M", Cell.na].map (applyMapping [(Cell.str "M", 1), (Cell.str "F", 0)])) ∧
    applyMapping [(Cell.str "M", (1 : ℚ)), (Cell.str "F", 0)] Cell.na = Cell.num (-1) :=
  ⟨(C6_manual_mapping wBundle wTable (by with_unfolding_all decide)
      (by with_unfolding_all decide) (by with_unfolding_all rfl)).1,
   by with_unfolding_all decide⟩

/-! ### Pipeline case analysis -/

theorem predictOnNewData_of_missing {b : ModelBundle} {t : Table}
    (hm : b.best_features.filter (fun c => !t.hasCol c) ≠ []) :
    predictOnNewData b t =
      Except.error (PipeError.schemaError (b.best_features.filter (fun c => !t.hasCol c))) := by
  show (if b.best_features.filter (fun c => !t.hasCol c) ≠ [] then
      Except.error (PipeError.schemaError (b.best_features.filter (fun c => !t.hasCol c)))
    else predictChecked b t) = _
  rw [if_pos hm]

theorem predictOnNewData_of_complete {b : ModelBundle} {t : Table}
    (hm : b.best_features.filter (fun c => !t.hasCol c) = []) :
    predictOnNewData b t = predictChecked b t := by
  show (if b.best_features.filter (fun c => !t.hasCol c) ≠ [] then
      Except.error (PipeError.schemaError (b.best_features.filter (fun c => !t.hasCol c)))
    else predictChecked b t) = _
  rw [if_neg (by simpa using hm)]

theorem predictChecked_of_qcut_error {b : ModelBundle} {t : Table} {msg : String}
    (h : riskGroupColumn (pipeScores b t) = Except.error msg) :
    predictChecked b t = Except.error (PipeError.qcutError msg) := by
  unfold predictChecked
  rw [h]

theorem predictChecked_of_groups {b : ModelBundle} {t : Table} {groups : List Cell}
    (h : riskGroupColumn (pipeScores b t) = Except.ok groups) :
    predictChecked b t = Except.ok ⟨pipeWithGroups b t groups,
      if (pipeWithGroups b t groups).hasCol "Event" &&
          (pipeWithGroups b t groups).hasCol "OS_Time" then
        some (concordanceIndex (colRats (pipeWithGroups b t groups) "OS_Time")
          ((colRats (pipeWithGroups b t groups) "Risk_Score").map (fun x => -x))
          (colRats (pipeWithGroups b t groups) "Event"))
      else none⟩ := by
  unfold predictChecked
  rw [h]

theorem hasCol_all_of_no_missing {b : ModelBundle} {t : Table}
    (hm : b.best_features.filter (fun c => !t.hasCol c) = []) :
    ∀ c ∈ b.best_features, t.hasCol c = true := by
  intro c hc
  have := List.filter_eq_nil_iff.mp hm c hc
  simpa using this

theorem requiredColumns_all_present (b : ModelBundle) (t : Table) :
    ∀ c ∈ requiredColumns b t, t.hasCol c = true := by
  intro c hc
  exact (List.mem_filter.mp hc).2

theorem columns_select_all_present {t : Table} {names : List String}
    (h : ∀ c ∈ names, t.hasCol c = true) : (t.select names).columns = names := by
  unfold Table.select Table.columns
  induction names with
  | nil => rfl
  | cons c rest ih =>
    rcases getCol_eq_some_of_hasCol (h c (List.mem_cons_self c rest)) with ⟨cells, hcells⟩
    rw [List.filterMap_cons, hcells]
    show c :: _ = c :: rest
    rw [ih (fun x hx => h x (List.mem_cons_of_mem c hx))]

theorem hasCol_setCol_ne (t : Table) {d c : String} (cells : List Cell) (h : d ≠ c) :
    (t.setCol d cells).hasCol c = t.hasCol c := by
  rcases hg : t.getCol c with _ | cs
  · have h1 : (t.setCol d cells).getCol c = none := by
      rw [getCol_setCol_ne t cells h, hg]
    rw [hasCol_false_of_getCol_none h1, hasCol_false_of_getCol_none hg]
  · rw [hasCol_of_getCol_eq_some hg,
      hasCol_of_getCol_eq_some (hg ▸ getCol_setCol_ne t cells h)]

theorem columns_pipeTable (b : ModelBundle) (t : Table) :
    (pipeTable b t).columns = requiredColumns b t := by
  unfold pipeTable
  rw [columns_preprocess, columns_select_all_present (requiredColumns_all_present b t)]

theorem hasCol_pipeWithGroups_ne {b : ModelBundle} {t : Table} {groups : List Cell}
    {c : String} (h1 : c ≠ "Risk_Score") (h2 : c ≠ "Risk_Group") :
    (pipeWithGroups b t groups).hasCol c = (pipeTable b t).hasCol c := by
  unfold pipeWithGroups
  rw [hasCol_setCol_ne _ _ (fun he => h2 he.symm),
    hasCol_setCol_ne _ _ (fun he => h1 he.symm)]

theorem hasCol_pipeTable_of_base (b : ModelBundle) (t : Table) {c : String}
    (hbase : c ∈ b.best_features ++ ["OS_Time", "Event"]) :
    (pipeTable b t).hasCol c = t.hasCol c := by
  by_cases ht : t.hasCol c = true
  · rw [ht]
    rw [hasCol_iff_mem_columns, columns_pipeTable]
    exact List.mem_filter.mpr ⟨hbase, by simpa using ht⟩
  · rw [Bool.eq_false_iff.mpr ht, ← Bool.not_eq_true]
    intro hp
    apply ht
    have := (hasCol_iff_mem_columns _ c).mp hp
    rw [columns_pipeTable] at this
    exact (List.mem_filter.mp this).2

/-! ### Claim C4: the schema check -/

/-- C4: the run fails with a schema error carrying exactly the missing
selected-feature names if and only if some selected feature is absent, and
this error precedes every other stage; when nothing is missing, a
successful run's table holds exactly the projection columns (the selected
features plus whichever of OS_Time and Event the input has) followed by
the two added output columns. -/
theorem C4_schema_check (b : ModelBundle) (t : Table) :
    (∀ m, predictOnNewData b t = Except.error (PipeError.schemaError m) ↔
      (m = b.best_features.filter (fun c => !t.hasCol c) ∧
        b.best_features.filter (fun c => !t.hasCol c) ≠ []))
  ∧ (b.best_features.filter (fun c => !t.hasCol c) = [] →
      ∀ r, predictOnNewData b t = Except.ok r →
        "Risk_Score" ∉ requiredColumns b t → "Risk_Group" ∉ requiredColumns b t →
        r.table.columns = requiredColumns b t ++ ["Risk_Score", "Risk_Group"]) := by
  constructor
  · intro m
    by_cases hm : b.best_features.filter (fun c => !t.hasCol c) ≠ []
    · rw [predictOnNewData_of_missing hm]
      constructor
      · intro h
        rw [Except.error.injEq, PipeError.schemaError.injEq] at h
        exact ⟨h.symm, hm⟩
      · rintro ⟨rfl, _⟩
        rfl
    · rw [predictOnNewData_of_complete (not_not.mp hm)]
      rcases hrg : riskGroupColumn (pipeScores b t) with msg | groups
      · rw [predictChecked_of_qcut_error hrg]
        constructor
        · intro h
          rw [Except.error.injEq] at h
          cases h
        · rintro ⟨_, hne⟩
          exact absurd (not_not.mp hm) hne
      · rw [predictChecked_of_groups hrg]
        constructor
        · intro h
          cases h
        · rintro ⟨_, hne⟩
          exact absurd (not_not.mp hm) hne
  · intro hm r hr hRS hRG
    rw [predictOnNewData_of_complete hm] at hr
    rcases hrg : riskGroupColumn (pipeScores b t) with msg | groups
    · rw [predictChecked_of_qcut_error hrg] at hr
      cases hr
    · rw [predictChecked_of_groups hrg, Except.ok.injEq] at hr
      have htab : r.table = pipeWithGroups b t groups := by
        rw [← hr]
      rw [htab]
      unfold pipeWithGroups
      have hcols6 : (pipeTable b t).columns = requiredColumns b t := columns_pipeTable b t
      have hnoRS : ¬ (pipeTable b t).hasCol "Risk_Score" = true := by
        intro hh
        apply hRS
        have := (hasCol_iff_mem_columns _ _).mp hh
        rw [hcols6] at this
        exact this
      have hcols7 : ((pipeTable b t).setCol "Risk_Score"
          ((pipeScores b t).map Cell.num)).columns = requiredColumns b t ++ ["Risk_Score"] := by
        rw [columns_setCol_of_not_hasCol _ _ hnoRS, hcols6]
      have hnoRG : ¬ ((pipeTable b t).setCol "Risk_Score"
          ((pipeScores b t).map Cell.num)).hasCol "Risk_Group" = true := by
        intro hh
        have := (hasCol_iff_mem_columns _ _).mp hh
        rw [hcols7] at this
        rcases List.mem_append.mp this with h1 | h2
        · exact hRG h1
        · rw [List.mem_singleton] at h2
          exact absurd h2 (by decide)
      rw [columns_setCol_of_not_hasCol _ _ hnoRG, hcols7, List.append_assoc]
      rfl

/-! ### Claims C7, C8, C9 -/

/-- C7: a successful run reports a concordance index exactly when both the
OS_Time and the Event column are present in the input, computed over the
observed times, the negated risk scores, and the event indicators of the
output table; when either column is absent the validation is skipped with
no error and the optional value is empty — it never changes the table. -/
theorem C7_cindex_condition (b : ModelBundle) (t : Table) (r : PredictResult)
    (h : predictOnNewData b t = Except.ok r) :
    r.c_index.isSome = (t.hasCol "Event" && t.hasCol "OS_Time")
  ∧ ((t.hasCol "Event" && t.hasCol "OS_Time") = true →
      r.c_index = some (concordanceIndex (colRats r.table "OS_Time")
        ((colRats r.table "Risk_Score").map (fun x => -x)) (colRats r.table "Event"))) := by
  have hm : b.best_features.filter (fun c => !t.hasCol c) = [] := by
    by_contra hmm
    rw [predictOnNewData_of_missing hmm] at h
    cases h
  rw [predictOnNewData_of_complete hm] at h
  rcases hrg : riskGroupColumn (pipeScores b t) with msg | groups
  · rw [predictChecked_of_qcut_error hrg] at h
    cases h
  · rw [predictChecked_of_groups hrg, Except.ok.injEq] at h
    subst h
    have hev : (pipeWithGroups b t groups).hasCol "Event" = t.hasCol "Event" := by
      rw [hasCol_pipeWithGroups_ne (by decide) (by decide)]
      exact hasCol_pipeTable_of_base b t
        (List.mem_append_right _ (by decide))
    have hos : (pipeWithGroups b t groups).hasCol "OS_Time" = t.hasCol "OS_Time" := by
      rw [hasCol_pipeWithGroups_ne (by decide) (by decide)]
      exact hasCol_pipeTable_of_base b t
        (List.mem_append_right _ (by decide))
    constructor
    · show (if (pipeWithGroups b t groups).hasCol "Event" &&
          (pipeWithGroups b t groups).hasCol "OS_Time" then
            some (concordanceIndex (colRats (pipeWithGroups b t groups) "OS_Time")
              ((colRats (pipeWithGroups b t groups) "Risk_Score").map (fun x => -x))
              (colRats (pipeWithGroups b t groups) "Event"))
          else none).isSome = (t.hasCol "Event" && t.hasCol "OS_Time")
      rw [hev, hos]
      by_cases hcond : (t.hasCol "Event" && t.hasCol "OS_Time") = true
      · rw [if_pos hcond, hcond]
        rfl
      · rw [if_neg hcond, Bool.eq_false_iff.mpr hcond]
        rfl
    · intro hcond
      show (if (pipeWithGroups b t groups).hasCol "Event" &&
          (pipeWithGroups b t groups).hasCol "OS_Time" then
            some (concordanceIndex (colRats (pipeWithGroups b t groups) "OS_Time")
              ((colRats (pipeWithGroups b t groups) "Risk_Score").map (fun x => -x))
              (colRats (pipeWithGroups b t groups) "Event"))
          else none) = some (concordanceIndex (colRats (pipeWithGroups b t groups) "OS_Time")
            ((colRats (pipeWithGroups b t groups) "Risk_Score").map (fun x => -x))
            (colRats (pipeWithGroups b t groups) "Event"))
      rw [hev, hos, if_pos hcond]

theorem setCol_cols_ne_nil (t : Table) (c : String) (cells : List Cell) :
    (t.setCol c cells).cols ≠ [] := by
  unfold Table.setCol
  by_cases hc : t.hasCol c = true
  · rw [if_pos hc]
    rcases List.any_eq_true.mp hc with ⟨p, hp, _⟩
    intro hnil
    rw [List.map_eq_nil_iff] at hnil
    rw [hnil] at hp
    cases hp
  · rw [if_neg hc]
    simp

/-- C8: on a uniform input table that passes the schema check, a successful
run returns a table with exactly as many rows as the input, and both the
Risk_Score and the Risk_Group column carry exactly one cell per input row. -/
theorem C8_row_preservation (b : ModelBundle) (t : Table) (n : Nat) (r : PredictResult)
    (hu : t.uniform n) (hne : b.best_features ≠ [])
    (h : predictOnNewData b t = Except.ok r) :
    r.table.numRows = t.numRows
  ∧ r.table.getCol "Risk_Score" = some ((pipeScores b t).map Cell.num)
  ∧ (∃ cells, r.table.getCol "Risk_Score" = some cells ∧ cells.length = t.numRows)
  ∧ (∃ cells, r.table.getCol "Risk_Group" = some cells ∧ cells.length = t.numRows) := by
  have hm : b.best_features.filter (fun c => !t.hasCol c) = [] := by
    by_contra hmm
    rw [predictOnNewData_of_missing hmm] at h
    cases h
  rw [predictOnNewData_of_complete hm] at h
  rcases hrg : riskGroupColumn (pipeScores b t) with msg | groups
  · rw [predictChecked_of_qcut_error hrg] at h
    cases h
  · rw [predictChecked_of_groups hrg, Except.ok.injEq] at h
    subst h
    obtain ⟨f0, rest, hbf⟩ : ∃ f0 rest, b.best_features = f0 :: rest := by
      rcases hb : b.best_features with _ | ⟨f0, rest⟩
      · exact absurd hb hne
      · exact ⟨f0, rest, rfl⟩
    have hf0 : t.hasCol f0 = true :=
      hasCol_all_of_no_missing hm f0 (hbf ▸ List.mem_cons_self f0 rest)
    have htne : t.cols ≠ [] := by
      rcases getCol_eq_some_of_hasCol hf0 with ⟨cs, hcs⟩
      unfold Table.getCol at hcs
      rcases hff : t.cols.find? (fun p => p.1 = f0) with _ | p
      · rw [hff] at hcs
        cases hcs
      · exact List.ne_nil_of_mem (List.mem_of_find?_eq_some hff)
    have htn : t.numRows = n := numRows_of_uniform hu htne
    have hreqmem : f0 ∈ requiredColumns b t :=
      List.mem_filter.mpr ⟨List.mem_append_left _ (hbf ▸ List.mem_cons_self f0 rest),
        by simpa using hf0⟩
    have hu6 : (pipeTable b t).uniform n := by
      unfold pipeTable
      exact uniform_preprocess b (uniform_select hu _)
    have h6ne : (pipeTable b t).cols ≠ [] := by
      intro hnil
      have hcolnil : (pipeTable b t).columns = [] := by
        unfold Table.columns
        rw [hnil]
        rfl
      rw [columns_pipeTable b t] at hcolnil
      rw [hcolnil] at hreqmem
      cases hreqmem
    have h6n : (pipeTable b t).numRows = n := numRows_of_uniform hu6 h6ne
    have hslen : (pipeScores b t).length = n := by
      unfold pipeScores featureRows
      rw [List.length_map, List.length_map, List.length_range, h6n]
    have hu7 : ((pipeTable b t).setCol "Risk_Score"
        ((pipeScores b t).map Cell.num)).uniform n :=
      uniform_setCol hu6 _ (by rw [List.length_map, hslen])
    have hglen : groups.length = n := by
      rw [riskGroupColumn_ok_length hrg, hslen]
    have hu8 : (pipeWithGroups b t groups).uniform n := by
      unfold pipeWithGroups
      exact uniform_setCol hu7 _ hglen
    have h8ne : (pipeWithGroups b t groups).cols ≠ [] := by
      unfold pipeWithGroups
      exact setCol_cols_ne_nil _ _ _
    have h8n : (pipeWithGroups b t groups).numRows = n := numRows_of_uniform hu8 h8ne
    refine ⟨?_, ?_, ?_, ?_⟩
    · show (pipeWithGroups b t groups).numRows = t.numRows
      rw [h8n, htn]
    · show (pipeWithGroups b t groups).getCol "Risk_Score" = _
      unfold pipeWithGroups
      rw [getCol_setCol_ne _ _ (by decide), getCol_setCol_self]
    · refine ⟨(pipeScores b t).map Cell.num, ?_, by rw [List.length_map, hslen, htn]⟩
      show (pipeWithGroups b t groups).getCol "Risk_Score" = _
      unfold pipeWithGroups
      rw [getCol_setCol_ne _ _ (by decide), getCol_setCol_self]
    · refine ⟨groups, ?_, by rw [hglen, htn]⟩
      show (pipeWithGroups b t groups).getCol "Risk_Group" = _
      unfold pipeWithGroups
      rw [getCol_setCol_self]

/-- C9: the embedded pipeline is a pure function of the bundle and the
input table, so two successful runs on identical input and bundle return
identical Risk_Score and Risk_Group columns. -/
theorem C9_determinism (b : ModelBundle) (t : Table) (r1 r2 : PredictResult)
    (h1 : predictOnNewData b t = Except.ok r1) (h2 : predictOnNewData b t = Except.ok r2) :
    r1.table.getCol "Risk_Score" = r2.table.getCol "Risk_Score"
  ∧ r1.table.getCol "Risk_Group" = r2.table.getCol "Risk_Group" := by
  have h12 := h1.symm.trans h2
  rw [Except.ok.injEq] at h12
  rw [h12]
  exact ⟨rfl, rfl⟩

/-! ### A complete concrete run, used by the pipeline witnesses -/

/-- Single-feature bundle whose Cox score is the Age value itself. -/
def pBundle : ModelBundle :=
  ⟨["Age"], ["Age"], [], [], fun _ => 50, fun _ => Cell.str "x",
    fun row => cellToRat (row.headD Cell.na)⟩

/-- Three labelled patients with distinct ages. -/
def pTable : Table :=
  ⟨[("Age", [Cell.num 1, Cell.num 2, Cell.num 3]),
    ("OS_Time", [Cell.num 10, Cell.num 5, Cell.num 2]),
    ("Event", [Cell.num 1, Cell.num 1, Cell.num 0])]⟩

/-- The run's evaluated output: scores 1, 2, 3, tertile groups Low, Medium,
High, and a perfect concordance of 1. -/
def pResult : PredictResult :=
  ⟨⟨[("Age", [Cell.num 1, Cell.num 2, Cell.num 3]),
     ("OS_Time", [Cell.num 10, Cell.num 5, Cell.num 2]),
     ("Event", [Cell.num 1, Cell.num 1, Cell.num 0]),
     ("Risk_Score", [Cell.num 1, Cell.num 2, Cell.num 3]),
     ("Risk_Group", [Cell.str "Low", Cell.str "Medium", Cell.str "High"])]⟩,
   some 1⟩

/-- Witness for C4 on the complete run: nothing is missing and the output
columns are exactly the projection plus Risk_Score and Risk_Group. -/
theorem C4_schema_check_witness :
    (pBundle.best_features.filter (fun c => !pTable.hasCol c) = []) ∧
    pResult.table.columns = requiredColumns pBundle pTable ++ ["Risk_Score", "Risk_Group"] :=
  ⟨by with_unfolding_all decide,
   (C4_schema_check pBundle pTable).2 (by with_unfolding_all decide) pResult
     (by with_unfolding_all rfl) (by with_unfolding_all decide)
     (by with_unfolding_all decide)⟩

/-- Witness for C7 on the complete run: both label columns are present and
the reported concordance is the one computed from the output table. -/
theorem C7_cindex_condition_witness :
    (pTable.hasCol "Event" && pTable.hasCol "OS_Time") = true ∧
    pResult.c_index = some (concordanceIndex (colRats pResult.table "OS_Time")
      ((colRats pResult.table "Risk_Score").map (fun x => -x))
      (colRats pResult.table "Event")) :=
  ⟨by with_unfolding_all decide,
   (C7_cindex_condition pBundle pTable pResult (by with_unfolding_all rfl)).2
     (by with_unfolding_all decide)⟩

/-- Witness for C8 on the complete run: three rows in, three rows out, one
score and one group per row. -/
theorem C8_row_preservation_witness :
    pResult.table.numRows = pTable.numRows
  ∧ pResult.table.getCol "Risk_Score" = some ((pipeScores pBundle pTable).map Cell.num)
  ∧ (∃ cells, pResult.table.getCol "Risk_Score" = some cells ∧
      cells.length = pTable.numRows)
  ∧ (∃ cells, pResult.table.getCol "Risk_Group" = some cells ∧
      cells.length = pTable.numRows) :=
  C8_row_preservation pBundle pTable 3 pResult
    (by unfold Table.uniform; with_unfolding_all decide)
    (by with_unfolding_all decide) (by with_unfolding_all rfl)

/-- Witness for C9 on the complete run. -/
theorem C9_determinism_witness :
    pResult.table.getCol "Risk_Score" = pResult.table.getCol "Risk_Score"
  ∧ pResult.table.getCol "Risk_Group" = pResult.table.getCol "Risk_Group" :=
  C9_determinism pBundle pTable pResult pResult
    (by with_unfolding_all rfl) (by with_unfolding_all rfl)
